import Mathlib

/-!
Verification of the logical plan graph editing primitives and the
correlated-column extraction of `plan/logical_plans.go`.

The plan graph is embedded shallowly: a node is identified by a natural
number, and the graph maps each id to its `children` and `parents` edge
lists.  The editing primitives `addChild`, `InsertPlan` and `RemovePlan`
are translated from the source; the base-plan helpers they call
(`ReplaceChild`, `ReplaceParent`, `AddChild`, `AddParent`, `SetParents`)
are not part of the given source tree, so they are modelled from the
spec.  Operations that can fail return the (possibly partially mutated)
graph together with an optional error message, mirroring Go methods that
mutate their receiver and return an `error`.
-/

set_option maxHeartbeats 1000000

namespace PlanGraph

/-- A plan node's edge sets: ordered `children` ids and `parents` back
references, the two mutable edge fields shared by every operator kind. -/
structure PNode where
  children : List Nat
  parents  : List Nat
deriving DecidableEq, Repr

/-- A plan graph: every node id carries its edge lists. -/
abbrev Graph := Nat → PNode

/-- Overwrite the `children` field of node `i`. -/
def setChildrenList (g : Graph) (i : Nat) (l : List Nat) : Graph :=
  fun j => if j = i then { children := l, parents := (g j).parents } else g j

/-- Overwrite the `parents` field of node `i`. -/
def setParentsList (g : Graph) (i : Nat) (l : List Nat) : Graph :=
  fun j => if j = i then { children := (g j).children, parents := l } else g j

/-- Replace the first occurrence of `old` in `l` by `new`; `none` when
`old` does not occur. -/
def replaceFirst (l : List Nat) (old new : Nat) : Option (List Nat) :=
  match l with
  | [] => none
  | x :: xs =>
    if x = old then some (new :: xs)
    else (replaceFirst xs old new).map (fun ys => x :: ys)

/-- Modelled from the spec: `replaceChild(old, new)` fails with a
not-found error if `old` is not present among the children; on success
the slot holding `old` is overwritten with `new`. -/
def ReplaceChild (g : Graph) (p old new : Nat) : Graph × Option String :=
  match replaceFirst (g p).children old new with
  | some l => (setChildrenList g p l, none)
  | none => (g, some "ReplaceChild failed")

/-- Modelled from the spec: `replaceParent(old, new)` fails with a
not-found error if `old` is not present among the parents; on success
the slot holding `old` is overwritten with `new`. -/
def ReplaceParent (g : Graph) (p old new : Nat) : Graph × Option String :=
  match replaceFirst (g p).parents old new with
  | some l => (setParentsList g p l, none)
  | none => (g, some "ReplaceParent failed")

/-- Modelled from the spec: `AddChild` is append-only edge mutation on
the children list. -/
def AddChild (g : Graph) (p c : Nat) : Graph :=
  setChildrenList g p ((g p).children ++ [c])

/-- Modelled from the spec: `AddParent` is append-only edge mutation on
the parents list. -/
def AddParent (g : Graph) (c p : Nat) : Graph :=
  setParentsList g c ((g c).parents ++ [p])

/-- Modelled from the spec: `SetParents()` called with no arguments
makes the node parentless, replacing its whole parents list. -/
def SetParentsEmpty (g : Graph) (c : Nat) : Graph :=
  setParentsList g c []

/-- `addChild(parent, child)` from the source: no-op when either
argument is nil (modelled by `none`); otherwise the child gains the
parent as a parent and the parent gains the child as a child. -/
def addChild (g : Graph) (parent child : Option Nat) : Graph :=
  match parent, child with
  | some p, some c => AddChild (AddParent g c p) p c
  | _, _ => g

/-- `InsertPlan(parent, child, insert)` from the source: first the child
replaces `parent` by `insert` among its parents, then the parent
replaces `child` by `insert` among its children, then `insert` gains
`child` as child and `parent` as parent.  An error aborts the remaining
steps but keeps the mutations already performed. -/
def InsertPlan (g : Graph) (parent child insert : Nat) : Graph × Option String :=
  match ReplaceParent g child parent insert with
  | (g1, some e) => (g1, some e)
  | (g1, none) =>
    match ReplaceChild g1 parent child insert with
    | (g2, some e) => (g2, some e)
    | (g2, none) => (AddParent (AddChild g2 insert child) insert parent, none)

/-- `RemovePlan(p)` from the source: rejects a node with more than one
parent or not exactly one child; a parentless node's single child has
its parents cleared; otherwise the parent's slot for `p` is replaced by
the child and the child's slot for `p` by the parent. -/
def RemovePlan (g : Graph) (p : Nat) : Graph × Option String :=
  let parents := (g p).parents
  let children := (g p).children
  if 1 < parents.length ∨ children.length ≠ 1 then
    (g, some "cant remove this plan")
  else if parents.length = 0 then
    (SetParentsEmpty g (children.headD 0), none)
  else
    let parent := parents.headD 0
    let child := children.headD 0
    match ReplaceChild g parent p child with
    | (g1, some e) => (g1, some e)
    | (g1, none) => ReplaceParent g1 child p parent

/-- The plan value returned by `RemovePlan`, read off the source: the
function's result type is a bare `error`, and each of its return
statements (the guard error, the `return nil` of the parentless branch
and the two traced results of the splice branch) carries no plan value,
so no call ever returns a plan. -/
def RemovePlanReturnedPlan (g : Graph) (p : Nat) : Option Nat :=
  let parents := (g p).parents
  let children := (g p).children
  if 1 < parents.length ∨ children.length ≠ 1 then none
  else if parents.length = 0 then none
  else none

/-- Occurrence count of `x` in a list of node ids. -/
def cnt (x : Nat) : List Nat → Nat
  | [] => 0
  | y :: ys => (if y = x then 1 else 0) + cnt x ys

/-- Edge symmetry with multiplicity over a set `ns` of node ids: node
`p` records `c` as a child exactly as often as `c` records `p` as a
parent. -/
def countSym (g : Graph) (ns : List Nat) : Prop :=
  ∀ p ∈ ns, ∀ c ∈ ns, cnt c (g p).children = cnt p (g c).parents

instance countSym.instDecidable (g : Graph) (ns : List Nat) :
    Decidable (countSym g ns) := by
  unfold countSym
  infer_instance

/-- Two roots 0 and 1 sharing the single child 2; the edge set is
symmetric.  Removing root 1 clears all of node 2's parents. -/
def exGraphC1 : Graph := fun n =>
  match n with
  | 0 => { children := [2], parents := [] }
  | 1 => { children := [2], parents := [] }
  | 2 => { children := [], parents := [0, 1] }
  | _ => { children := [], parents := [] }

/-- An asymmetric graph: node 1 records 0 as a parent but node 0 does
not record 1 as a child. -/
def exGraphC3 : Graph := fun n =>
  match n with
  | 0 => { children := [], parents := [] }
  | 1 => { children := [], parents := [0] }
  | _ => { children := [], parents := [] }

/-- The chain 0 → 1 → 2 with symmetric edges. -/
def exGraphC4 : Graph := fun n =>
  match n with
  | 0 => { children := [1], parents := [] }
  | 1 => { children := [2], parents := [0] }
  | 2 => { children := [], parents := [1] }
  | _ => { children := [], parents := [] }

/-- A node 1 with two children 2 and 3. -/
def exGraphC5 : Graph := fun n =>
  match n with
  | 0 => { children := [1], parents := [] }
  | 1 => { children := [2, 3], parents := [0] }
  | 2 => { children := [], parents := [1] }
  | 3 => { children := [], parents := [1] }
  | _ => { children := [], parents := [] }

/-- A parentless node 1 whose single child is 2. -/
def exGraphC6 : Graph := fun n =>
  match n with
  | 1 => { children := [2], parents := [] }
  | 2 => { children := [], parents := [1] }
  | _ => { children := [], parents := [] }

/-- An edge 0 → 1 plus a node 2 that already has the child 5. -/
def exGraphC7 : Graph := fun n =>
  match n with
  | 0 => { children := [1], parents := [] }
  | 1 => { children := [], parents := [0] }
  | 2 => { children := [5], parents := [] }
  | 5 => { children := [], parents := [2] }
  | _ => { children := [], parents := [] }

/-- A fresh insert node 2 next to the edge 0 → 1. -/
def exGraphC7W : Graph := fun n =>
  match n with
  | 0 => { children := [1], parents := [] }
  | 1 => { children := [], parents := [0] }
  | _ => { children := [], parents := [] }

/-- A parentless node 1 with single child 2, where 2 is shared with the
second parent 3. -/
def exGraphC10 : Graph := fun n =>
  match n with
  | 1 => { children := [2], parents := [] }
  | 2 => { children := [], parents := [1, 3] }
  | 3 => { children := [2], parents := [] }
  | _ => { children := [], parents := [] }

/-- A schema column, identified by its unique id. -/
structure EColumn where
  id : Nat
deriving DecidableEq, Repr

/-- A correlated column: an underlying schema column together with the
scope level at which the reference was introduced.  The Apply filter
inspects only the underlying `Column`. -/
structure CorrelatedColumn where
  Column : EColumn
  level : Nat
deriving DecidableEq, Repr

/-- Expressions of the external expression collaborator: column leaves,
correlated column leaves, constants and scalar function applications. -/
inductive Expression where
  | column (c : EColumn)
  | correlated (c : CorrelatedColumn)
  | constant (v : Int)
  | scalarFunc (name : String) (args : List Expression)
deriving Repr

mutual
/-- Modelled from the spec: the expression collaborator's
`extractCorrelated`, producing the sequence of correlated references an
expression makes, in left-to-right order. -/
def extractCorColumns : Expression → List CorrelatedColumn
  | .column _ => []
  | .correlated c => [c]
  | .constant _ => []
  | .scalarFunc _ args => extractCorColumnsList args
/-- Correlated references of a list of expressions, in order. -/
def extractCorColumnsList : List Expression → List CorrelatedColumn
  | [] => []
  | e :: es => extractCorColumns e ++ extractCorColumnsList es
end

/-- Position of a column in a schema, `none` when absent. -/
def schemaIndex (schema : List EColumn) (c : EColumn) : Option Nat :=
  match schema with
  | [] => none
  | x :: xs => if x = c then some 0 else (schemaIndex xs c).map (· + 1)

mutual
/-- Modelled from the spec: the expression collaborator's substitution.
A leaf reference to a column present in `schema` is replaced by the
replacement expression at the same position; the rewrite recurses
through scalar function arguments. -/
def ColumnSubstitute : Expression → List EColumn → List Expression → Expression
  | .column c, schema, exprs =>
    match schemaIndex schema c with
    | some i => exprs.getD i (.column c)
    | none => .column c
  | .correlated c, _, _ => .correlated c
  | .constant v, _, _ => .constant v
  | .scalarFunc n args, schema, exprs =>
    .scalarFunc n (columnSubstituteList args schema exprs)
/-- Substitution mapped over a list of expressions. -/
def columnSubstituteList : List Expression → List EColumn → List Expression → List Expression
  | [], _, _ => []
  | e :: es, schema, exprs =>
    ColumnSubstitute e schema exprs :: columnSubstituteList es schema exprs
end

/-- The four condition lists a Join owns.  In the source the equality
conditions are typed `*expression.ScalarFunction`; here they are kept as
expressions and the scalar function constraint is enforced by the cast
performed in `columnSubstitute`. -/
structure JoinConds where
  EqualConditions : List Expression
  LeftConditions : List Expression
  RightConditions : List Expression
  OtherConditions : List Expression

/-- The fragment of the operator tree the extraction claims need:
a leaf with a schema, a single-child selection, and the Join and Apply
operators with their condition lists and two children. -/
inductive LPlan where
  | dataSource (schema : List EColumn)
  | selection (conds : List Expression) (child : LPlan)
  | join (conds : JoinConds) (left right : LPlan)
  | applyOp (conds : JoinConds) (left right : LPlan)

/-- Modelled from the spec: the schema of an operator; a leaf owns its
column list, a selection passes its child through, a join concatenates
the children's schemas. -/
def LPlan.schema : LPlan → List EColumn
  | .dataSource s => s
  | .selection _ child => child.schema
  | .join _ l r => l.schema ++ r.schema
  | .applyOp _ l r => l.schema ++ r.schema

/-- Correlated references of a condition list: the per-expression
extractions concatenated in order, as the source appends them. -/
def exprListCorCols (es : List Expression) : List CorrelatedColumn :=
  (es.map extractCorColumns).flatten

/-- The correlated references contributed by a Join's own conditions, in
the order the source visits them: equality, left, right, other. -/
def condsCorCols (cs : JoinConds) : List CorrelatedColumn :=
  exprListCorCols cs.EqualConditions ++ exprListCorCols cs.LeftConditions ++
    exprListCorCols cs.RightConditions ++ exprListCorCols cs.OtherConditions

/-- `append(corCols[:i], corCols[i+1:]...)` from the source: drop the
element at index `i`. -/
def removeAt (l : List CorrelatedColumn) (i : Nat) : List CorrelatedColumn :=
  l.take i ++ l.drop (i + 1)

/-- The in-place reverse-index removal loop of `Apply.extractCorrelatedCols`:
`for i := len(corCols) - 1; i >= 0; i--` removing index `i` whenever its
underlying column is contained in the left child's schema. -/
def corRemoveLoop (schema : List EColumn) : List CorrelatedColumn → Nat → List CorrelatedColumn
  | cs, 0 => cs
  | cs, i + 1 =>
    match cs.get? i with
    | some c => if c.Column ∈ schema then corRemoveLoop schema (removeAt cs i) i
                else corRemoveLoop schema cs i
    | none => corRemoveLoop schema cs i

/-- `extractCorrelatedCols` of each operator.  The base-plan part (the
recursive union over children, modelled from the spec) comes first, then
the operator's own expression lists, as in the source; the Apply case
computes the Join extraction and runs the reverse removal loop against
the left child's schema. -/
def LPlan.extractCorrelatedCols : LPlan → List CorrelatedColumn
  | .dataSource _ => []
  | .selection conds child => child.extractCorrelatedCols ++ exprListCorCols conds
  | .join cs l r => l.extractCorrelatedCols ++ r.extractCorrelatedCols ++ condsCorCols cs
  | .applyOp cs l r =>
    let corCols := l.extractCorrelatedCols ++ r.extractCorrelatedCols ++ condsCorCols cs
    corRemoveLoop l.schema corCols corCols.length

/-- Whether an expression is a scalar function value. -/
def isScalarFunc : Expression → Bool
  | .scalarFunc _ _ => true
  | _ => false

/-- The unconditional downcast `.(*expression.ScalarFunction)` of the
source: yields the expression itself when it is a scalar function and
reaches the error branch (`none`, a Go panic) otherwise. -/
def castScalarFunc : Expression → Option Expression
  | .scalarFunc n args => some (.scalarFunc n args)
  | _ => none

/-- Apply `f` to each element, failing at the first `none`, as the
source's assignment loop over the equality conditions does. -/
def mapSomeList (f : Expression → Option Expression) : List Expression → Option (List Expression)
  | [] => some []
  | a :: as =>
    match f a with
    | none => none
    | some b => (mapSomeList f as).map (fun bs => b :: bs)

/-- `Join.columnSubstitute` from the source, parameterised by the
substitution `sub` supplied by the external expression collaborator:
each equality condition is rewritten and unconditionally downcast back
to a scalar function (`none` models the panic of a failed cast), and the
left, right and other condition lists are rewritten element-wise. -/
def joinColumnSubstituteWith (sub : Expression → Expression) (j : JoinConds) : Option JoinConds :=
  match mapSomeList (fun f => castScalarFunc (sub f)) j.EqualConditions with
  | none => none
  | some eqs =>
    some { EqualConditions := eqs,
           LeftConditions := j.LeftConditions.map sub,
           RightConditions := j.RightConditions.map sub,
           OtherConditions := j.OtherConditions.map sub }

/-- `Join.columnSubstitute` with the collaborator instantiated by the
spec-modelled `ColumnSubstitute`. -/
def joinColumnSubstitute (j : JoinConds) (schema : List EColumn) (exprs : List Expression) : Option JoinConds :=
  joinColumnSubstituteWith (fun e => ColumnSubstitute e schema exprs) j

/-- The correlated reference that stays unresolved in the Apply
counterexample: column 7 is not produced by the left child. -/
def ccY : CorrelatedColumn := ⟨⟨7⟩, 0⟩

/-- A correlated reference to column 5, which the left child's schema
contains. -/
def ccX : CorrelatedColumn := ⟨⟨5⟩, 0⟩

/-- An Apply node whose right-hand conditions reference the locally
resolved column 5 once and the outer column 7 twice. -/
def exApplyC2 : LPlan :=
  LPlan.applyOp
    { EqualConditions := [], LeftConditions := [],
      RightConditions := [],
      OtherConditions := [.correlated ccX, .correlated ccY, .correlated ccY] }
    (LPlan.dataSource [⟨5⟩]) (LPlan.dataSource [])

/-- The Join underlying `exApplyC2`, with identical conditions and
children. -/
def exJoinC2 : LPlan :=
  LPlan.join
    { EqualConditions := [], LeftConditions := [],
      RightConditions := [],
      OtherConditions := [.correlated ccX, .correlated ccY, .correlated ccY] }
    (LPlan.dataSource [⟨5⟩]) (LPlan.dataSource [])

/-- Occurrence count of a correlated column in an extraction result. -/
def cntCC (x : CorrelatedColumn) : List CorrelatedColumn → Nat
  | [] => 0
  | y :: ys => (if y = x then 1 else 0) + cntCC x ys

/-- The single equality condition `a.id = b.id` of the substitution
scenario, over columns 0 (`a.id`) and 1 (`b.id`). -/
def eqCondC8 : Expression := .scalarFunc "eq" [.column ⟨0⟩, .column ⟨1⟩]

/-- The Join of the substitution scenario: one equality condition, all
other condition lists empty. -/
def exJoinC8 : JoinConds :=
  { EqualConditions := [eqCondC8], LeftConditions := [],
    RightConditions := [], OtherConditions := [] }

end PlanGraph

namespace PlanGraph

theorem setChildrenList_children (g : Graph) (i : Nat) (l : List Nat) (j : Nat) :
    ((setChildrenList g i l) j).children = if j = i then l else (g j).children := by
  unfold setChildrenList; split <;> rfl

theorem setChildrenList_parents (g : Graph) (i : Nat) (l : List Nat) (j : Nat) :
    ((setChildrenList g i l) j).parents = (g j).parents := by
  unfold setChildrenList; split <;> rfl

theorem setParentsList_parents (g : Graph) (i : Nat) (l : List Nat) (j : Nat) :
    ((setParentsList g i l) j).parents = if j = i then l else (g j).parents := by
  unfold setParentsList; split <;> rfl

theorem setParentsList_children (g : Graph) (i : Nat) (l : List Nat) (j : Nat) :
    ((setParentsList g i l) j).children = (g j).children := by
  unfold setParentsList; split <;> rfl

theorem replaceFirst_mem {l : List Nat} {o n : Nat} {l' : List Nat}
    (h : replaceFirst l o n = some l') : o ∈ l := by
  induction l generalizing l' with
  | nil => simp [replaceFirst] at h
  | cons x xs ih =>
    by_cases hx : x = o
    · subst hx; exact List.mem_cons_self _ _
    · simp [replaceFirst, hx] at h
      obtain ⟨ys, hys, _⟩ := h
      exact List.mem_cons_of_mem _ (ih hys)

theorem replaceFirst_some_of_mem {l : List Nat} {o : Nat} (n : Nat) (h : o ∈ l) :
    ∃ l', replaceFirst l o n = some l' := by
  induction l with
  | nil => simp at h
  | cons x xs ih =>
    by_cases hx : x = o
    · exact ⟨n :: xs, by simp [replaceFirst, hx]⟩
    · have hm : o ∈ xs := by
        rcases List.mem_cons.mp h with h1 | h1
        · exact absurd h1.symm hx
        · exact h1
      obtain ⟨l', hl'⟩ := ih hm
      exact ⟨x :: l', by simp [replaceFirst, hx, hl']⟩

theorem replaceFirst_cnt {l l' : List Nat} {o n : Nat}
    (h : replaceFirst l o n = some l') (x : Nat) :
    cnt x l' + (if o = x then 1 else 0) = cnt x l + (if n = x then 1 else 0) := by
  induction l generalizing l' with
  | nil => simp [replaceFirst] at h
  | cons a xs ih =>
    by_cases ha : a = o
    · subst ha
      simp [replaceFirst] at h
      subst h
      simp only [cnt]
      omega
    · simp only [replaceFirst, if_neg ha, Option.map_eq_some'] at h
      obtain ⟨ys, hys, hl'⟩ := h
      subst hl'
      have := ih hys
      simp only [cnt]
      omega

theorem replaceFirst_pos {l1 : List Nat} (l2 : List Nat) {o : Nat} (n : Nat)
    (h : o ∉ l1) : replaceFirst (l1 ++ o :: l2) o n = some (l1 ++ n :: l2) := by
  induction l1 with
  | nil => simp [replaceFirst]
  | cons x xs ih =>
    have hx : x ≠ o := fun hc => h (hc ▸ List.mem_cons_self _ _)
    have hxs : o ∉ xs := fun hc => h (List.mem_cons_of_mem _ hc)
    simp [replaceFirst, hx, ih hxs]

theorem cnt_append (x : Nat) (l1 l2 : List Nat) :
    cnt x (l1 ++ l2) = cnt x l1 + cnt x l2 := by
  induction l1 with
  | nil => simp [cnt]
  | cons a as ih => simp [cnt, ih]; omega

theorem cnt_singleton (x a : Nat) : cnt x [a] = if a = x then 1 else 0 := by
  simp [cnt]

theorem cnt_nil (x : Nat) : cnt x [] = 0 := rfl

theorem cnt_eq_zero_of_not_mem {x : Nat} {l : List Nat} (h : x ∉ l) :
    cnt x l = 0 := by
  induction l with
  | nil => rfl
  | cons a as ih =>
    have ha : a ≠ x := fun hc => h (hc ▸ List.mem_cons_self _ _)
    have has : x ∉ as := fun hc => h (List.mem_cons_of_mem _ hc)
    simp [cnt, ha, ih has]

theorem cnt_pos_iff_mem {x : Nat} {l : List Nat} : 0 < cnt x l ↔ x ∈ l := by
  induction l with
  | nil => simp [cnt]
  | cons a as ih =>
    simp only [cnt, List.mem_cons]
    by_cases ha : a = x
    · subst ha; simp
    · have hax : ¬x = a := fun h => ha h.symm
      simp [ha, hax, ih]

theorem length_eq_one_headD {l : List Nat} (h : l.length = 1) :
    l = [l.headD 0] := by
  cases l with
  | nil => simp at h
  | cons a as =>
    cases as with
    | nil => rfl
    | cons b bs => simp at h

theorem pnode_eq {a b : PNode} (h1 : a.children = b.children)
    (h2 : a.parents = b.parents) : a = b := by
  cases a; cases b; cases h1; cases h2; rfl

/-- Claim C5: RemovePlan on a node with two or more children, or with
two or more parents, or with zero children, fails with the topology
error and returns the graph entirely unchanged. -/
theorem C5_removePlan_rejects (g : Graph) (n : Nat)
    (h : 2 ≤ (g n).children.length ∨ 2 ≤ (g n).parents.length ∨
      (g n).children.length = 0) :
    RemovePlan g n = (g, some "cant remove this plan") := by
  have hguard : 1 < (g n).parents.length ∨ (g n).children.length ≠ 1 := by omega
  simp only [RemovePlan]
  rw [if_pos hguard]

/-- Witness for C5: node 1 of `exGraphC5` has two children, so the call
fails and the graph is untouched. -/
theorem C5_removePlan_rejects_witness :
    (2 ≤ (exGraphC5 1).children.length ∨ 2 ≤ (exGraphC5 1).parents.length ∨
      (exGraphC5 1).children.length = 0) ∧
    RemovePlan exGraphC5 1 = (exGraphC5, some "cant remove this plan") :=
  ⟨by decide, C5_removePlan_rejects exGraphC5 1 (by decide)⟩

/-- Claim C3 counterexample: in `exGraphC3`, node 0 is recorded as a
parent of node 1 while node 1 is not recorded as a child of node 0;
`InsertPlan(0, 1, 2)` fails, yet node 1's parents list has been
mutated, so a failing call does not leave all lists as they were. -/
theorem C3_counterexample :
    (InsertPlan exGraphC3 0 1 2).2 ≠ none ∧
      ((InsertPlan exGraphC3 0 1 2).1 1).parents ≠ (exGraphC3 1).parents := by
  decide

/-- Claim C3 (amended): whenever the spliced pair is edge-symmetric (if
`parent` occurs among `child`'s parents then `child` occurs among
`parent`'s children), a failing InsertPlan leaves the graph unchanged;
the only remaining failure is the first step, which mutates nothing. -/
theorem C3_insertPlan_atomic (g : Graph) (P C I : Nat)
    (hsym : P ∈ (g C).parents → C ∈ (g P).children)
    (herr : (InsertPlan g P C I).2 ≠ none) :
    (InsertPlan g P C I).1 = g := by
  cases hrp : replaceFirst (g C).parents P I with
  | none => simp [InsertPlan, ReplaceParent, hrp]
  | some lp =>
    exfalso
    have hPmem : P ∈ (g C).parents := replaceFirst_mem hrp
    have hCmem : C ∈ ((setParentsList g C lp) P).children := by
      rw [setParentsList_children]; exact hsym hPmem
    obtain ⟨lc, hlc⟩ := replaceFirst_some_of_mem I hCmem
    apply herr
    simp [InsertPlan, ReplaceParent, hrp, ReplaceChild, hlc]

/-- Witness for C3 (amended): inserting under the absent edge 5 → 6
fails at the first step and the graph is returned unchanged. -/
theorem C3_insertPlan_atomic_witness :
    (5 ∈ (exGraphC3 6).parents → 6 ∈ (exGraphC3 5).children) ∧
      (InsertPlan exGraphC3 5 6 7).2 ≠ none ∧
      (InsertPlan exGraphC3 5 6 7).1 = exGraphC3 :=
  ⟨by decide, by decide, C3_insertPlan_atomic exGraphC3 5 6 7 (by decide) (by decide)⟩

/-- Claim C6 counterexample: removing the parentless node 1 (single
child 2) succeeds, but the call does not return the child: RemovePlan
returns only an error value, and its returned plan component is `none`,
never `some 2`. -/
theorem C6_counterexample :
    (exGraphC6 1).parents = [] ∧ (exGraphC6 1).children = [2] ∧
      (RemovePlan exGraphC6 1).2 = none ∧
      RemovePlanReturnedPlan exGraphC6 1 ≠ some 2 := by
  decide

/-- Claim C6 (amended): removing a parentless node with exactly one
child succeeds and makes that child parentless (a new plan root); the
call returns a nil error and no plan value, so the child is not
returned. -/
theorem C6_removePlan_parentless (g : Graph) (n c : Nat)
    (hp : (g n).parents = []) (hc : (g n).children = [c]) :
    (RemovePlan g n).2 = none ∧ ((RemovePlan g n).1 c).parents = [] ∧
      RemovePlanReturnedPlan g n = none := by
  have hguard : ¬(1 < (g n).parents.length ∨ (g n).children.length ≠ 1) := by
    rw [hp, hc]; simp
  have h0 : (g n).parents.length = 0 := by rw [hp]; rfl
  have hhead : (g n).children.headD 0 = c := by rw [hc]; rfl
  constructor
  · simp only [RemovePlan]
    rw [if_neg hguard, if_pos h0]
  constructor
  · simp only [RemovePlan]
    rw [if_neg hguard, if_pos h0, hhead]
    simp [SetParentsEmpty, setParentsList_parents]
  · simp only [RemovePlanReturnedPlan]
    rw [if_neg hguard, if_pos h0]

/-- Witness for C6 (amended): removing node 1 of `exGraphC6` makes node
2 parentless and returns no plan. -/
theorem C6_removePlan_parentless_witness :
    (exGraphC6 1).parents = [] ∧ (exGraphC6 1).children = [2] ∧
      ((RemovePlan exGraphC6 1).2 = none ∧
        ((RemovePlan exGraphC6 1).1 2).parents = [] ∧
        RemovePlanReturnedPlan exGraphC6 1 = none) :=
  ⟨by decide, by decide, C6_removePlan_parentless exGraphC6 1 2 (by decide) (by decide)⟩

/-- Claim C10: in the zero-parent case RemovePlan clears the child's
whole parents list while every other node keeps both of its lists: any
other parent of the child still records the child among its children
although the child no longer records it, and the removed node's own
children list still points at the child. -/
theorem C10_frame (g : Graph) (n c : Nat)
    (hp : (g n).parents = []) (hc : (g n).children = [c]) :
    (RemovePlan g n).2 = none ∧
      ((RemovePlan g n).1 c).parents = [] ∧
      (∀ m, m ≠ c → (RemovePlan g n).1 m = g m) ∧
      (∀ m, m ≠ c → c ∈ (g m).children → c ∈ ((RemovePlan g n).1 m).children) ∧
      ((RemovePlan g n).1 n).children = [c] := by
  have hguard : ¬(1 < (g n).parents.length ∨ (g n).children.length ≠ 1) := by
    rw [hp, hc]; simp
  have h0 : (g n).parents.length = 0 := by rw [hp]; rfl
  have hhead : (g n).children.headD 0 = c := by rw [hc]; rfl
  have hres : RemovePlan g n = (SetParentsEmpty g c, none) := by
    simp only [RemovePlan]
    rw [if_neg hguard, if_pos h0, hhead]
  rw [hres]
  refine ⟨rfl, ?_, ?_, ?_, ?_⟩
  · simp [SetParentsEmpty, setParentsList_parents]
  · intro m hm
    apply pnode_eq
    · exact setParentsList_children g c [] m
    · simp only [SetParentsEmpty, setParentsList_parents]
      rw [if_neg hm]
  · intro m hm hmem
    rw [SetParentsEmpty, setParentsList_children]; exact hmem
  · rw [SetParentsEmpty, setParentsList_children, hc]

/-- Witness for C10: removing node 1 of `exGraphC10` leaves the shared
child 2 with no parents while the other parent 3 still lists it. -/
theorem C10_frame_witness :
    (exGraphC10 1).parents = [] ∧ (exGraphC10 1).children = [2] ∧
      ((RemovePlan exGraphC10 1).2 = none ∧
        ((RemovePlan exGraphC10 1).1 2).parents = [] ∧
        (∀ m, m ≠ 2 → (RemovePlan exGraphC10 1).1 m = exGraphC10 m) ∧
        (∀ m, m ≠ 2 → 2 ∈ (exGraphC10 m).children →
          2 ∈ ((RemovePlan exGraphC10 1).1 m).children) ∧
        ((RemovePlan exGraphC10 1).1 1).children = [2]) :=
  ⟨by decide, by decide, C10_frame exGraphC10 1 2 (by decide) (by decide)⟩

/-- Claim C4 counterexample: in the chain 0 → 1 → 2 the removal of node
1 succeeds, but node 1 is not fully detached — its own children and
parents lists are not both emptied. -/
theorem C4_counterexample :
    (RemovePlan exGraphC4 1).2 = none ∧
      ¬(((RemovePlan exGraphC4 1).1 1).children = [] ∧
        ((RemovePlan exGraphC4 1).1 1).parents = []) := by
  decide

/-- Claim C4 (amended): for a chain P → N → C where N has exactly one
parent and one child, RemovePlan(N) succeeds, puts C in P's children
slot that held N and P in C's parents slot that held N, and leaves every
other node untouched; N itself is not detached — its own lists still
read [C] and [P]. -/
theorem C4_removePlan_splice (g : Graph) (N P C : Nat) (l1 l2 m1 m2 : List Nat)
    (hNp : (g N).parents = [P]) (hNc : (g N).children = [C])
    (hNP : N ≠ P) (hNC : N ≠ C) (hPC : P ≠ C)
    (hPc : (g P).children = l1 ++ N :: l2) (hl1 : N ∉ l1)
    (hCp : (g C).parents = m1 ++ N :: m2) (hm1 : N ∉ m1) :
    (RemovePlan g N).2 = none ∧
      ((RemovePlan g N).1 P).children = l1 ++ C :: l2 ∧
      ((RemovePlan g N).1 C).parents = m1 ++ P :: m2 ∧
      (RemovePlan g N).1 N = g N ∧
      ((RemovePlan g N).1 P).parents = (g P).parents ∧
      ((RemovePlan g N).1 C).children = (g C).children ∧
      (∀ x, x ≠ P → x ≠ C → (RemovePlan g N).1 x = g x) := by
  have hguard : ¬(1 < (g N).parents.length ∨ (g N).children.length ≠ 1) := by
    rw [hNp, hNc]; simp
  have h0 : ¬(g N).parents.length = 0 := by rw [hNp]; simp
  have hheadp : (g N).parents.headD 0 = P := by rw [hNp]; rfl
  have hheadc : (g N).children.headD 0 = C := by rw [hNc]; rfl
  have hrc : replaceFirst (g P).children N C = some (l1 ++ C :: l2) := by
    rw [hPc]; exact replaceFirst_pos l2 C hl1
  have hrp : replaceFirst ((setChildrenList g P (l1 ++ C :: l2)) C).parents N P
      = some (m1 ++ P :: m2) := by
    rw [setChildrenList_parents, hCp]; exact replaceFirst_pos m2 P hm1
  have hres : RemovePlan g N =
      (setParentsList (setChildrenList g P (l1 ++ C :: l2)) C (m1 ++ P :: m2), none) := by
    simp only [RemovePlan]
    rw [if_neg hguard, if_neg h0, hheadp, hheadc]
    simp [ReplaceChild, hrc, ReplaceParent, hrp]
  rw [hres]
  refine ⟨rfl, ?_, ?_, ?_, ?_, ?_, ?_⟩
  · rw [setParentsList_children, setChildrenList_children, if_pos rfl]
  · rw [setParentsList_parents, if_pos rfl]
  · apply pnode_eq
    · rw [setParentsList_children, setChildrenList_children, if_neg hNP]
    · rw [setParentsList_parents, if_neg hNC, setChildrenList_parents]
  · rw [setParentsList_parents, if_neg hPC, setChildrenList_parents]
  · rw [setParentsList_children, setChildrenList_children, if_neg (Ne.symm hPC)]
  · intro x hxP hxC
    apply pnode_eq
    · rw [setParentsList_children, setChildrenList_children, if_neg hxP]
    · rw [setParentsList_parents, if_neg hxC, setChildrenList_parents]

/-- Witness for C4 (amended): splicing out node 1 of the chain
0 → 1 → 2. -/
theorem C4_removePlan_splice_witness :
    ((exGraphC4 1).parents = [0] ∧ (exGraphC4 1).children = [2] ∧
      (exGraphC4 0).children = [] ++ 1 :: [] ∧ (exGraphC4 2).parents = [] ++ 1 :: []) ∧
    ((RemovePlan exGraphC4 1).2 = none ∧
      ((RemovePlan exGraphC4 1).1 0).children = [] ++ 2 :: [] ∧
      ((RemovePlan exGraphC4 1).1 2).parents = [] ++ 0 :: [] ∧
      (RemovePlan exGraphC4 1).1 1 = exGraphC4 1 ∧
      ((RemovePlan exGraphC4 1).1 0).parents = (exGraphC4 0).parents ∧
      ((RemovePlan exGraphC4 1).1 2).children = (exGraphC4 2).children ∧
      (∀ x, x ≠ 0 → x ≠ 2 → (RemovePlan exGraphC4 1).1 x = exGraphC4 x)) :=
  ⟨⟨by decide, by decide, by decide, by decide⟩,
    C4_removePlan_splice exGraphC4 1 0 2 [] [] [] [] (by decide) (by decide)
      (by decide) (by decide) (by decide) (by decide) (by decide) (by decide) (by decide)⟩

/-- Claim C7 counterexample: inserting node 2, which already has a
child, between 0 and 1 succeeds, but afterwards node 2's children list
is not [1] — the existing child is still there. -/
theorem C7_counterexample :
    (InsertPlan exGraphC7 0 1 2).2 = none ∧
      ((InsertPlan exGraphC7 0 1 2).1 2).children ≠ [1] := by
  decide

/-- Claim C7 (amended): when the inserted node starts with no edges of
its own, a successful InsertPlan(P, C, I) puts I in P's children slot
that held C and in C's parents slot that held P, gives I exactly the
child list [C] and parent list [P], and touches no other edge of P, C or
any other node. -/
theorem C7_insertPlan_shape (g : Graph) (P C I : Nat) (l1 l2 m1 m2 : List Nat)
    (hIc : (g I).children = []) (hIp : (g I).parents = [])
    (hIP : I ≠ P) (hIC : I ≠ C) (hPC : P ≠ C)
    (hPc : (g P).children = l1 ++ C :: l2) (hl1 : C ∉ l1)
    (hCp : (g C).parents = m1 ++ P :: m2) (hm1 : P ∉ m1) :
    (InsertPlan g P C I).2 = none ∧
      ((InsertPlan g P C I).1 P).children = l1 ++ I :: l2 ∧
      ((InsertPlan g P C I).1 C).parents = m1 ++ I :: m2 ∧
      ((InsertPlan g P C I).1 I).children = [C] ∧
      ((InsertPlan g P C I).1 I).parents = [P] ∧
      ((InsertPlan g P C I).1 P).parents = (g P).parents ∧
      ((InsertPlan g P C I).1 C).children = (g C).children ∧
      (∀ x, x ≠ P → x ≠ C → x ≠ I → (InsertPlan g P C I).1 x = g x) := by
  have hrp : replaceFirst (g C).parents P I = some (m1 ++ I :: m2) := by
    rw [hCp]; exact replaceFirst_pos m2 I hm1
  have hrc : replaceFirst ((setParentsList g C (m1 ++ I :: m2)) P).children C I
      = some (l1 ++ I :: l2) := by
    rw [setParentsList_children, hPc]; exact replaceFirst_pos l2 I hl1
  have hg2I : ((setChildrenList (setParentsList g C (m1 ++ I :: m2)) P (l1 ++ I :: l2)) I).children
      = [] := by
    rw [setChildrenList_children, if_neg hIP, setParentsList_children, hIc]
  have hg3I : ((AddChild (setChildrenList (setParentsList g C (m1 ++ I :: m2)) P (l1 ++ I :: l2)) I C) I).parents
      = [] := by
    rw [AddChild, setChildrenList_parents, setChildrenList_parents,
      setParentsList_parents, if_neg hIC, hIp]
  have hres : InsertPlan g P C I =
      (AddParent (AddChild (setChildrenList (setParentsList g C (m1 ++ I :: m2)) P (l1 ++ I :: l2)) I C) I P, none) := by
    simp [InsertPlan, ReplaceParent, hrp, ReplaceChild, hrc]
  rw [hres]
  refine ⟨rfl, ?_, ?_, ?_, ?_, ?_, ?_, ?_⟩
  · rw [AddParent, setParentsList_children, AddChild, setChildrenList_children,
      if_neg (Ne.symm hIP), setChildrenList_children, if_pos rfl]
  · rw [AddParent, setParentsList_parents, if_neg (Ne.symm hIC), AddChild,
      setChildrenList_parents, setChildrenList_parents, setParentsList_parents, if_pos rfl]
  · rw [AddParent, setParentsList_children, AddChild, setChildrenList_children,
      if_pos rfl, hg2I]
    rfl
  · rw [AddParent, setParentsList_parents, if_pos rfl, hg3I]
    rfl
  · rw [AddParent, setParentsList_parents, if_neg (Ne.symm hIP), AddChild,
      setChildrenList_parents, setChildrenList_parents, setParentsList_parents,
      if_neg hPC]
  · rw [AddParent, setParentsList_children, AddChild, setChildrenList_children,
      if_neg (Ne.symm hIC), setChildrenList_children, if_neg (Ne.symm hPC),
      setParentsList_children]
  · intro x hxP hxC hxI
    apply pnode_eq
    · rw [AddParent, setParentsList_children, AddChild, setChildrenList_children,
        if_neg hxI, setChildrenList_children, if_neg hxP, setParentsList_children]
    · rw [AddParent, setParentsList_parents, if_neg hxI, AddChild,
        setChildrenList_parents, setChildrenList_parents, setParentsList_parents,
        if_neg hxC]

/-- Witness for C7 (amended): inserting the fresh node 2 between 0 and
1 in `exGraphC7W`. -/
theorem C7_insertPlan_shape_witness :
    ((exGraphC7W 2).children = [] ∧ (exGraphC7W 2).parents = [] ∧
      (exGraphC7W 0).children = [] ++ 1 :: [] ∧ (exGraphC7W 1).parents = [] ++ 0 :: []) ∧
    ((InsertPlan exGraphC7W 0 1 2).2 = none ∧
      ((InsertPlan exGraphC7W 0 1 2).1 0).children = [] ++ 2 :: [] ∧
      ((InsertPlan exGraphC7W 0 1 2).1 1).parents = [] ++ 2 :: [] ∧
      ((InsertPlan exGraphC7W 0 1 2).1 2).children = [1] ∧
      ((InsertPlan exGraphC7W 0 1 2).1 2).parents = [0] ∧
      ((InsertPlan exGraphC7W 0 1 2).1 0).parents = (exGraphC7W 0).parents ∧
      ((InsertPlan exGraphC7W 0 1 2).1 1).children = (exGraphC7W 1).children ∧
      (∀ x, x ≠ 0 → x ≠ 1 → x ≠ 2 → (InsertPlan exGraphC7W 0 1 2).1 x = exGraphC7W x)) :=
  ⟨⟨by decide, by decide, by decide, by decide⟩,
    C7_insertPlan_shape exGraphC7W 0 1 2 [] [] [] [] (by decide) (by decide)
      (by decide) (by decide) (by decide) (by decide) (by decide) (by decide) (by decide)⟩

theorem corRemoveLoop_eq_filter (schema : List EColumn) :
    ∀ (i : Nat) (cs : List CorrelatedColumn), i ≤ cs.length →
      corRemoveLoop schema cs i =
        (cs.take i).filter (fun c => decide (c.Column ∉ schema)) ++ cs.drop i := by
  intro i
  induction i with
  | zero => intro cs _; simp [corRemoveLoop]
  | succ i ih =>
    intro cs hle
    have hi : i < cs.length := by omega
    have hget : cs[i]? = some (cs.get ⟨i, hi⟩) := by
      rw [List.getElem?_eq_getElem hi]
      simp [List.get_eq_getElem]
    have hget0 : cs.get? i = some (cs.get ⟨i, hi⟩) := List.get?_eq_get hi
    have htakelen : (cs.take i).length = i := by
      rw [List.length_take]; omega
    have htake : cs.take (i + 1) = cs.take i ++ [cs.get ⟨i, hi⟩] := by
      rw [List.take_succ, hget]; rfl
    by_cases hmem : (cs.get ⟨i, hi⟩).Column ∈ schema
    · have hstep : corRemoveLoop schema cs (i + 1) =
          corRemoveLoop schema (removeAt cs i) i := by
        simp only [corRemoveLoop, hget0]
        rw [if_pos hmem]
      have hlen : i ≤ (removeAt cs i).length := by
        simp only [removeAt, List.length_append, List.length_take, List.length_drop]
        omega
      rw [hstep, ih _ hlen]
      have h1 : (removeAt cs i).take i = cs.take i := by
        rw [removeAt]; exact List.take_left' htakelen
      have h2 : (removeAt cs i).drop i = cs.drop (i + 1) := by
        rw [removeAt]; exact List.drop_left' htakelen
      rw [h1, h2, htake, List.filter_append]
      have hmem' : cs[i].Column ∈ schema := by simpa using hmem
      have : [cs.get ⟨i, hi⟩].filter (fun c => decide (c.Column ∉ schema)) = [] := by
        simp [hmem']
      rw [this, List.append_nil]
    · have hstep : corRemoveLoop schema cs (i + 1) = corRemoveLoop schema cs i := by
        simp only [corRemoveLoop, hget0]
        rw [if_neg hmem]
      rw [hstep, ih _ (Nat.le_of_lt hi), htake, List.filter_append]
      have hmem' : cs[i].Column ∉ schema := by simpa using hmem
      have h1 : [cs.get ⟨i, hi⟩].filter (fun c => decide (c.Column ∉ schema)) =
          [cs.get ⟨i, hi⟩] := by simp [hmem']
      have h2 : cs.drop i = cs.get ⟨i, hi⟩ :: cs.drop (i + 1) := by
        rw [List.drop_eq_getElem_cons hi]; rfl
      rw [h1, h2, List.append_assoc]
      rfl

theorem corRemoveLoop_full (schema : List EColumn) (cs : List CorrelatedColumn) :
    corRemoveLoop schema cs cs.length =
      cs.filter (fun c => decide (c.Column ∉ schema)) := by
  rw [corRemoveLoop_eq_filter schema cs.length cs (Nat.le_refl _),
    List.take_length, List.drop_length, List.append_nil]

theorem cntCC_filter_of_pos {p : CorrelatedColumn → Bool} {a : CorrelatedColumn}
    (h : p a = true) (l : List CorrelatedColumn) :
    cntCC a (l.filter p) = cntCC a l := by
  induction l with
  | nil => rfl
  | cons x xs ih =>
    by_cases hx : p x = true
    · simp [List.filter_cons, hx, cntCC, ih]
    · have hxa : x ≠ a := fun hc => hx (hc ▸ h)
      simp [List.filter_cons, hx, cntCC, hxa, ih]

/-- Claim C2 counterexample: in `exApplyC2` the correlated column over
the outer column 7 occurs twice in the underlying Join extraction and
therefore twice in the Apply result — the result is not duplicate-free
and a surviving column need not remain present exactly once (while the
locally resolved column 5 is indeed removed). -/
theorem C2_counterexample :
    ccY.Column ∉ (LPlan.dataSource [⟨5⟩]).schema ∧
      cntCC ccY (LPlan.extractCorrelatedCols exJoinC2) = 2 ∧
      cntCC ccY (LPlan.extractCorrelatedCols exApplyC2) = 2 ∧
      ccX.Column ∈ (LPlan.dataSource [⟨5⟩]).schema ∧
      cntCC ccX (LPlan.extractCorrelatedCols exApplyC2) = 0 := by
  decide

/-- Claim C2 (amended): the Apply extraction is exactly the
order-preserving filter of the underlying Join extraction that drops
every entry whose underlying column the left child's schema contains;
multiplicities of the surviving entries are preserved (duplicates are
not removed), every surviving entry's column is outside the left
schema, and a correlated column outside the left schema keeps its exact
occurrence count from the Join extraction. -/
theorem C2_apply_decorrelation (cs : JoinConds) (l r : LPlan) :
    LPlan.extractCorrelatedCols (.applyOp cs l r) =
      (LPlan.extractCorrelatedCols (.join cs l r)).filter
        (fun c => decide (c.Column ∉ l.schema)) ∧
    (∀ cc ∈ LPlan.extractCorrelatedCols (.applyOp cs l r), cc.Column ∉ l.schema) ∧
    (∀ cc : CorrelatedColumn, cc.Column ∉ l.schema →
      cntCC cc (LPlan.extractCorrelatedCols (.applyOp cs l r)) =
        cntCC cc (LPlan.extractCorrelatedCols (.join cs l r))) := by
  have hfil : LPlan.extractCorrelatedCols (.applyOp cs l r) =
      (LPlan.extractCorrelatedCols (.join cs l r)).filter
        (fun c => decide (c.Column ∉ l.schema)) := by
    show corRemoveLoop l.schema _ _ = _
    exact corRemoveLoop_full l.schema _
  refine ⟨hfil, ?_, ?_⟩
  · intro cc hcc
    rw [hfil] at hcc
    have := List.of_mem_filter hcc
    simpa using this
  · intro cc hcc
    rw [hfil]
    exact cntCC_filter_of_pos (by simpa using hcc) _

/-- Witness for C2 (amended), instantiated at the concrete Apply node
`exApplyC2`. -/
theorem C2_apply_decorrelation_witness :
    LPlan.extractCorrelatedCols exApplyC2 =
      (LPlan.extractCorrelatedCols exJoinC2).filter
        (fun c => decide (c.Column ∉ (LPlan.dataSource [⟨5⟩]).schema)) ∧
    (∀ cc ∈ LPlan.extractCorrelatedCols exApplyC2,
      cc.Column ∉ (LPlan.dataSource [⟨5⟩]).schema) ∧
    (∀ cc : CorrelatedColumn, cc.Column ∉ (LPlan.dataSource [⟨5⟩]).schema →
      cntCC cc (LPlan.extractCorrelatedCols exApplyC2) =
        cntCC cc (LPlan.extractCorrelatedCols exJoinC2)) :=
  C2_apply_decorrelation
    { EqualConditions := [], LeftConditions := [], RightConditions := [],
      OtherConditions := [.correlated ccX, .correlated ccY, .correlated ccY] }
    (LPlan.dataSource [⟨5⟩]) (LPlan.dataSource [])

theorem castScalarFunc_some {e e' : Expression} (h : castScalarFunc e = some e') :
    e' = e := by
  cases e with
  | scalarFunc n args =>
    simp only [castScalarFunc, Option.some.injEq] at h
    exact h.symm
  | column c => simp [castScalarFunc] at h
  | correlated c => simp [castScalarFunc] at h
  | constant v => simp [castScalarFunc] at h

theorem mapSomeList_some {f : Expression → Option Expression} :
    ∀ {l l' : List Expression}, mapSomeList f l = some l' →
      l'.length = l.length ∧
        ∀ (i : Nat) (a : Expression), l.get? i = some a →
          ∃ b, f a = some b ∧ l'.get? i = some b := by
  intro l
  induction l with
  | nil =>
    intro l' h
    simp [mapSomeList] at h
    subst h
    exact ⟨rfl, by intro i a h; simp at h⟩
  | cons x xs ih =>
    intro l' h
    cases hfx : f x with
    | none => simp [mapSomeList, hfx] at h
    | some b =>
      simp only [mapSomeList, hfx, Option.map_eq_some'] at h
      obtain ⟨bs, hbs, hl'⟩ := h
      subst hl'
      obtain ⟨hlen, hget⟩ := ih hbs
      refine ⟨by simp [hlen], ?_⟩
      intro i a hga
      cases i with
      | zero =>
        simp at hga
        subst hga
        exact ⟨b, hfx, rfl⟩
      | succ i =>
        simp only [List.get?_cons_succ] at hga ⊢
        exact hget i a hga

theorem mapSomeList_none {f : Expression → Option Expression} :
    ∀ {l : List Expression}, mapSomeList f l = none ↔ ∃ a ∈ l, f a = none := by
  intro l
  induction l with
  | nil => simp [mapSomeList]
  | cons x xs ih =>
    cases hfx : f x with
    | none => simp [mapSomeList, hfx]
    | some b => simp [mapSomeList, hfx, ih]

/-- Claim C8: a successful `Join.columnSubstitute` rewrites all four
condition lists element-wise, preserving each list's length and order:
the three plain lists become exact maps of the substitution and each
equality condition is the substitution of the old entry at the same
index; in the scenario with the single equality condition
`a.id = b.id` (columns 0, 1) and the substitution sending `a.id` to
`a.pk` (column 2), the result has one equality condition whose left
side is `a.pk` and whose right side is unchanged. -/
theorem C8_join_columnSubstitute (j : JoinConds) (schema : List EColumn)
    (exprs : List Expression) (j' : JoinConds)
    (h : joinColumnSubstitute j schema exprs = some j') :
    j'.EqualConditions.length = j.EqualConditions.length ∧
    (∀ (i : Nat) (f : Expression), j.EqualConditions.get? i = some f →
      j'.EqualConditions.get? i = some (ColumnSubstitute f schema exprs)) ∧
    j'.LeftConditions = j.LeftConditions.map (fun e => ColumnSubstitute e schema exprs) ∧
    j'.RightConditions = j.RightConditions.map (fun e => ColumnSubstitute e schema exprs) ∧
    j'.OtherConditions = j.OtherConditions.map (fun e => ColumnSubstitute e schema exprs) ∧
    joinColumnSubstitute exJoinC8 [⟨0⟩] [.column ⟨2⟩] =
      some { EqualConditions := [.scalarFunc "eq" [.column ⟨2⟩, .column ⟨1⟩]],
             LeftConditions := [], RightConditions := [], OtherConditions := [] } := by
  unfold joinColumnSubstitute joinColumnSubstituteWith at h
  cases hm : mapSomeList (fun f => castScalarFunc (ColumnSubstitute f schema exprs))
      j.EqualConditions with
  | none => rw [hm] at h; exact absurd h (by simp)
  | some eqs =>
    rw [hm] at h
    simp only [Option.some.injEq] at h
    subst h
    obtain ⟨hlen, hget⟩ := mapSomeList_some hm
    refine ⟨hlen, ?_, rfl, rfl, rfl, rfl⟩
    intro i f hf
    obtain ⟨b, hb, hgb⟩ := hget i f hf
    rw [castScalarFunc_some hb] at hgb
    exact hgb

/-- Witness for C8 at the scenario input. -/
theorem C8_join_columnSubstitute_witness :
    joinColumnSubstitute exJoinC8 [⟨0⟩] [.column ⟨2⟩] =
      some { EqualConditions := [.scalarFunc "eq" [.column ⟨2⟩, .column ⟨1⟩]],
             LeftConditions := [], RightConditions := [], OtherConditions := [] } ∧
    ({ EqualConditions := [Expression.scalarFunc "eq" [.column ⟨2⟩, .column ⟨1⟩]],
       LeftConditions := [], RightConditions := [],
       OtherConditions := [] } : JoinConds).EqualConditions.length =
      exJoinC8.EqualConditions.length :=
  ⟨rfl,
    (C8_join_columnSubstitute exJoinC8 [⟨0⟩] [.column ⟨2⟩]
      { EqualConditions := [.scalarFunc "eq" [.column ⟨2⟩, .column ⟨1⟩]],
        LeftConditions := [], RightConditions := [], OtherConditions := [] } rfl).1⟩

/-- Claim C9: the unconditional downcast in `Join.columnSubstitute`
reaches its error branch exactly when some equality condition's
substitution result is not a scalar function; hence the operation is
panic-free precisely under the precondition that substitution keeps
every equality condition a scalar function. -/
theorem C9_cast_safety (sub : Expression → Expression) (j : JoinConds) :
    joinColumnSubstituteWith sub j = none ↔
      ∃ f ∈ j.EqualConditions, isScalarFunc (sub f) = false := by
  have hcast : ∀ e : Expression, castScalarFunc e = none ↔ isScalarFunc e = false := by
    intro e; cases e <;> simp [castScalarFunc, isScalarFunc]
  constructor
  · intro h
    cases hm : mapSomeList (fun f => castScalarFunc (sub f)) j.EqualConditions with
    | none =>
      obtain ⟨a, ha, hfa⟩ := mapSomeList_none.mp hm
      exact ⟨a, ha, (hcast (sub a)).mp hfa⟩
    | some eqs =>
      unfold joinColumnSubstituteWith at h
      rw [hm] at h
      exact absurd h (by simp)
  · intro ⟨f, hf, hsf⟩
    have : mapSomeList (fun f => castScalarFunc (sub f)) j.EqualConditions = none :=
      mapSomeList_none.mpr ⟨f, hf, (hcast (sub f)).mpr hsf⟩
    unfold joinColumnSubstituteWith
    rw [this]

/-- Witness for C9: a substitution collapsing the equality condition to
a constant makes the call reach the error branch. -/
theorem C9_cast_safety_witness :
    joinColumnSubstituteWith (fun _ => Expression.constant 0) exJoinC8 = none :=
  (C9_cast_safety (fun _ => Expression.constant 0) exJoinC8).mpr
    ⟨eqCondC8, List.mem_cons_self _ _, rfl⟩

theorem addChild_presSym (g : Graph) (ns : List Nat) (po co : Option Nat)
    (hs : countSym g ns) : countSym (addChild g po co) ns := by
  cases po with
  | none => cases co <;> exact hs
  | some p =>
    cases co with
    | none => exact hs
    | some c =>
      intro x hx y hy
      have H := hs x hx y hy
      have hch : ((addChild g (some p) (some c)) x).children =
          if x = p then (g p).children ++ [c] else (g x).children := by
        show ((AddChild (AddParent g c p) p c) x).children = _
        rw [AddChild, setChildrenList_children, AddParent, setParentsList_children,
          setParentsList_children]
      have hpar : ((addChild g (some p) (some c)) y).parents =
          if y = c then (g c).parents ++ [p] else (g y).parents := by
        show ((AddChild (AddParent g c p) p c) y).parents = _
        rw [AddChild, setChildrenList_parents, AddParent, setParentsList_parents]
      rw [hch, hpar]
      by_cases hxp : x = p <;> by_cases hyc : y = c
      · subst hxp; subst hyc
        rw [if_pos rfl, if_pos rfl, cnt_append, cnt_singleton, cnt_append,
          cnt_singleton, if_pos rfl, if_pos rfl]
        omega
      · subst hxp
        rw [if_pos rfl, if_neg hyc, cnt_append, cnt_singleton,
          if_neg (fun h => hyc h.symm : ¬c = y)]
        omega
      · subst hyc
        rw [if_neg hxp, if_pos rfl, cnt_append, cnt_singleton,
          if_neg (fun h => hxp h.symm : ¬p = x)]
        omega
      · rw [if_neg hxp, if_neg hyc]
        exact H

theorem insertPlan_presSym (g : Graph) (ns : List Nat) (P C I : Nat)
    (hs : countSym g ns)
    (hok : (InsertPlan g P C I).2 = none) : countSym (InsertPlan g P C I).1 ns := by
  cases hrp : replaceFirst (g C).parents P I with
  | none =>
    exfalso
    simp [InsertPlan, ReplaceParent, hrp] at hok
  | some lp =>
    cases hrc : replaceFirst (g P).children C I with
    | none =>
      exfalso
      have hrc' : replaceFirst ((setParentsList g C lp) P).children C I = none := by
        rw [setParentsList_children]; exact hrc
      simp [InsertPlan, ReplaceParent, hrp, ReplaceChild, hrc'] at hok
    | some lc =>
      have hrc' : replaceFirst ((setParentsList g C lp) P).children C I = some lc := by
        rw [setParentsList_children]; exact hrc
      have hres : (InsertPlan g P C I).1 =
          AddParent (AddChild (setChildrenList (setParentsList g C lp) P lc) I C) I P := by
        simp [InsertPlan, ReplaceParent, hrp, ReplaceChild, hrc']
      rw [hres]
      have hA := replaceFirst_cnt hrc
      have hB := replaceFirst_cnt hrp
      by_cases hIP : I = P
      · subst hIP
        by_cases hIC : I = C
        · subst hIC
          have hAeq : ∀ z, cnt z lc = cnt z (g I).children := by
            intro z; have := hA z; omega
          have hBeq : ∀ z, cnt z lp = cnt z (g I).parents := by
            intro z; have := hB z; omega
          have hch : ∀ x, ((AddParent (AddChild (setChildrenList (setParentsList g I lp) I lc) I I) I I) x).children =
              if x = I then lc ++ [I] else (g x).children := by
            intro x
            by_cases hxI : x = I
            · rw [if_pos hxI, hxI, AddParent, setParentsList_children, AddChild,
                setChildrenList_children, if_pos rfl, setChildrenList_children,
                if_pos rfl]
            · rw [if_neg hxI, AddParent, setParentsList_children, AddChild,
                setChildrenList_children, if_neg hxI, setChildrenList_children,
                if_neg hxI, setParentsList_children]
          have hpar : ∀ y, ((AddParent (AddChild (setChildrenList (setParentsList g I lp) I lc) I I) I I) y).parents =
              if y = I then lp ++ [I] else (g y).parents := by
            intro y
            by_cases hyI : y = I
            · rw [if_pos hyI, hyI, AddParent, setParentsList_parents, if_pos rfl,
                AddChild, setChildrenList_parents, setChildrenList_parents,
                setParentsList_parents, if_pos rfl]
            · rw [if_neg hyI, AddParent, setParentsList_parents, if_neg hyI,
                AddChild, setChildrenList_parents, setChildrenList_parents,
                setParentsList_parents, if_neg hyI]
          intro x hx y hy
          have H := hs x hx y hy
          rw [hch x, hpar y]
          by_cases hxI : x = I
          · rw [hxI] at H ⊢
            rw [if_pos rfl, cnt_append, cnt_singleton]
            by_cases hyI : y = I
            · rw [hyI] at H ⊢
              rw [if_pos rfl, if_pos rfl, cnt_append, cnt_singleton, if_pos rfl]
              have ha := hAeq I
              have hb := hBeq I
              omega
            · rw [if_neg hyI, if_neg (fun h => hyI h.symm : ¬I = y)]
              have ha := hAeq y
              omega
          · rw [if_neg hxI]
            by_cases hyI : y = I
            · rw [hyI] at H ⊢
              rw [if_pos rfl, cnt_append, cnt_singleton,
                if_neg (fun h => hxI h.symm : ¬I = x)]
              have hb := hBeq x
              omega
            · rw [if_neg hyI]
              exact H
        · have hCI : ¬C = I := fun h => hIC h.symm
          have hBeq : ∀ z, cnt z lp = cnt z (g C).parents := by
            intro z; have := hB z; omega
          have A1 : cnt I lc = cnt I (g I).children + 1 := by
            have := hA I; rw [if_neg hCI, if_pos rfl] at this; omega
          have A2 : cnt C lc + 1 = cnt C (g I).children := by
            have := hA C; rw [if_pos rfl, if_neg hIC] at this; omega
          have A3 : ∀ z, ¬z = C → ¬z = I → cnt z lc = cnt z (g I).children := by
            intro z h1 h2
            have := hA z
            rw [if_neg (fun h => h1 h.symm : ¬C = z),
              if_neg (fun h => h2 h.symm : ¬I = z)] at this
            omega
          have hch : ∀ x, ((AddParent (AddChild (setChildrenList (setParentsList g C lp) I lc) I C) I I) x).children =
              if x = I then lc ++ [C] else (g x).children := by
            intro x
            by_cases hxI : x = I
            · rw [if_pos hxI, hxI, AddParent, setParentsList_children, AddChild,
                setChildrenList_children, if_pos rfl, setChildrenList_children,
                if_pos rfl]
            · rw [if_neg hxI, AddParent, setParentsList_children, AddChild,
                setChildrenList_children, if_neg hxI, setChildrenList_children,
                if_neg hxI, setParentsList_children]
          have hpar : ∀ y, ((AddParent (AddChild (setChildrenList (setParentsList g C lp) I lc) I C) I I) y).parents =
              if y = I then (g I).parents ++ [I] else if y = C then lp else (g y).parents := by
            intro y
            by_cases hyI : y = I
            · rw [if_pos hyI, hyI, AddParent, setParentsList_parents, if_pos rfl,
                AddChild, setChildrenList_parents, setChildrenList_parents,
                setParentsList_parents, if_neg hIC]
            · rw [if_neg hyI, AddParent, setParentsList_parents, if_neg hyI,
                AddChild, setChildrenList_parents, setChildrenList_parents,
                setParentsList_parents]
          intro x hx y hy
          have H := hs x hx y hy
          rw [hch x, hpar y]
          by_cases hxI : x = I
          · rw [hxI] at H ⊢
            rw [if_pos rfl, cnt_append, cnt_singleton]
            by_cases hyI : y = I
            · rw [hyI] at H ⊢
              rw [if_pos rfl, if_neg hCI, cnt_append, cnt_singleton, if_pos rfl]
              omega
            · rw [if_neg hyI]
              by_cases hyC : y = C
              · rw [hyC] at H ⊢
                rw [if_pos rfl, if_pos rfl]
                have hb := hBeq I
                omega
              · rw [if_neg hyC, if_neg (fun h => hyC h.symm : ¬C = y)]
                have ha := A3 y hyC hyI
                omega
          · rw [if_neg hxI]
            by_cases hyI : y = I
            · rw [hyI] at H ⊢
              rw [if_pos rfl, cnt_append, cnt_singleton,
                if_neg (fun h => hxI h.symm : ¬I = x)]
              omega
            · rw [if_neg hyI]
              by_cases hyC : y = C
              · rw [hyC] at H ⊢
                rw [if_pos rfl]
                have hb := hBeq x
                omega
              · rw [if_neg hyC]
                exact H
      · by_cases hIC : I = C
        · subst hIC
          have hPI : ¬P = I := fun h => hIP h.symm
          have hAeq : ∀ z, cnt z lc = cnt z (g P).children := by
            intro z; have := hA z; omega
          have B1 : cnt I lp = cnt I (g I).parents + 1 := by
            have := hB I; rw [if_neg hPI, if_pos rfl] at this; omega
          have B2 : cnt P lp + 1 = cnt P (g I).parents := by
            have := hB P; rw [if_pos rfl, if_neg hIP] at this; omega
          have B3 : ∀ z, ¬z = P → ¬z = I → cnt z lp = cnt z (g I).parents := by
            intro z h1 h2
            have := hB z
            rw [if_neg (fun h => h1 h.symm : ¬P = z),
              if_neg (fun h => h2 h.symm : ¬I = z)] at this
            omega
          have hch : ∀ x, ((AddParent (AddChild (setChildrenList (setParentsList g I lp) P lc) I I) I P) x).children =
              if x = I then (g I).children ++ [I] else if x = P then lc else (g x).children := by
            intro x
            by_cases hxI : x = I
            · rw [if_pos hxI, hxI, AddParent, setParentsList_children, AddChild,
                setChildrenList_children, if_pos rfl, setChildrenList_children,
                if_neg hIP, setParentsList_children]
            · rw [if_neg hxI, AddParent, setParentsList_children, AddChild,
                setChildrenList_children, if_neg hxI, setChildrenList_children,
                setParentsList_children]
          have hpar : ∀ y, ((AddParent (AddChild (setChildrenList (setParentsList g I lp) P lc) I I) I P) y).parents =
              if y = I then lp ++ [P] else (g y).parents := by
            intro y
            by_cases hyI : y = I
            · rw [if_pos hyI, hyI, AddParent, setParentsList_parents, if_pos rfl,
                AddChild, setChildrenList_parents, setChildrenList_parents,
                setParentsList_parents, if_pos rfl]
            · rw [if_neg hyI, AddParent, setParentsList_parents, if_neg hyI,
                AddChild, setChildrenList_parents, setChildrenList_parents,
                setParentsList_parents, if_neg hyI]
          intro x hx y hy
          have H := hs x hx y hy
          rw [hch x, hpar y]
          by_cases hxI : x = I
          · rw [hxI] at H ⊢
            rw [if_pos rfl, cnt_append, cnt_singleton]
            by_cases hyI : y = I
            · rw [hyI] at H ⊢
              rw [if_pos rfl, if_pos rfl, cnt_append, cnt_singleton, if_neg hPI]
              omega
            · rw [if_neg hyI, if_neg (fun h => hyI h.symm : ¬I = y)]
              omega
          · rw [if_neg hxI]
            by_cases hxP : x = P
            · rw [hxP] at H ⊢
              rw [if_pos rfl]
              by_cases hyI : y = I
              · rw [hyI] at H ⊢
                rw [if_pos rfl, cnt_append, cnt_singleton, if_pos rfl]
                have ha := hAeq I
                omega
              · rw [if_neg hyI]
                have ha := hAeq y
                omega
            · rw [if_neg hxP]
              by_cases hyI : y = I
              · rw [hyI] at H ⊢
                rw [if_pos rfl, cnt_append, cnt_singleton,
                  if_neg (fun h => hxP h.symm : ¬P = x)]
                have hb := B3 x hxP hxI
                omega
              · rw [if_neg hyI]
                exact H
        · have hch : ∀ x, ((AddParent (AddChild (setChildrenList (setParentsList g C lp) P lc) I C) I P) x).children =
              if x = I then (g I).children ++ [C] else if x = P then lc else (g x).children := by
            intro x
            by_cases hxI : x = I
            · rw [if_pos hxI, hxI, AddParent, setParentsList_children, AddChild,
                setChildrenList_children, if_pos rfl, setChildrenList_children,
                if_neg hIP, setParentsList_children]
            · rw [if_neg hxI, AddParent, setParentsList_children, AddChild,
                setChildrenList_children, if_neg hxI, setChildrenList_children,
                setParentsList_children]
          have hpar : ∀ y, ((AddParent (AddChild (setChildrenList (setParentsList g C lp) P lc) I C) I P) y).parents =
              if y = I then (g I).parents ++ [P] else if y = C then lp else (g y).parents := by
            intro y
            by_cases hyI : y = I
            · rw [if_pos hyI, hyI, AddParent, setParentsList_parents, if_pos rfl,
                AddChild, setChildrenList_parents, setChildrenList_parents,
                setParentsList_parents, if_neg hIC]
            · rw [if_neg hyI, AddParent, setParentsList_parents, if_neg hyI,
                AddChild, setChildrenList_parents, setChildrenList_parents,
                setParentsList_parents]
          have hCI : ¬C = I := fun h => hIC h.symm
          have hPI : ¬P = I := fun h => hIP h.symm
          have A1 : cnt I lc = cnt I (g P).children + 1 := by
            have := hA I; rw [if_neg hCI, if_pos rfl] at this; omega
          have A2 : cnt C lc + 1 = cnt C (g P).children := by
            have := hA C; rw [if_pos rfl, if_neg hIC] at this; omega
          have A3 : ∀ y, ¬y = C → ¬y = I → cnt y lc = cnt y (g P).children := by
            intro y h1 h2
            have := hA y
            rw [if_neg (fun h => h1 h.symm : ¬C = y), if_neg (fun h => h2 h.symm : ¬I = y)] at this
            omega
          have B1 : cnt I lp = cnt I (g C).parents + 1 := by
            have := hB I; rw [if_neg hPI, if_pos rfl] at this; omega
          have B2 : cnt P lp + 1 = cnt P (g C).parents := by
            have := hB P; rw [if_pos rfl, if_neg hIP] at this; omega
          have B3 : ∀ x, ¬x = P → ¬x = I → cnt x lp = cnt x (g C).parents := by
            intro x h1 h2
            have := hB x
            rw [if_neg (fun h => h1 h.symm : ¬P = x), if_neg (fun h => h2 h.symm : ¬I = x)] at this
            omega
          intro x hx y hy
          have H := hs x hx y hy
          rw [hch x, hpar y]
          by_cases hxI : x = I
          · rw [hxI] at H ⊢
            rw [if_pos rfl]
            by_cases hyI : y = I
            · rw [hyI] at H ⊢
              rw [if_pos rfl, cnt_append, cnt_singleton, if_neg hCI, cnt_append,
                cnt_singleton, if_neg hPI]
              omega
            · rw [if_neg hyI]
              by_cases hyC : y = C
              · rw [hyC] at H ⊢
                rw [if_pos rfl, cnt_append, cnt_singleton, if_pos rfl]
                omega
              · rw [if_neg hyC, cnt_append, cnt_singleton,
                  if_neg (fun h => hyC h.symm : ¬C = y)]
                omega
          · rw [if_neg hxI]
            by_cases hxP : x = P
            · rw [hxP] at H ⊢
              rw [if_pos rfl]
              by_cases hyI : y = I
              · rw [hyI] at H ⊢
                rw [if_pos rfl, cnt_append, cnt_singleton, if_pos rfl, A1]
                omega
              · rw [if_neg hyI]
                by_cases hyC : y = C
                · rw [hyC] at H ⊢
                  rw [if_pos rfl]
                  omega
                · rw [if_neg hyC, A3 y hyC hyI]
                  exact H
            · rw [if_neg hxP]
              by_cases hyI : y = I
              · rw [hyI] at H ⊢
                rw [if_pos rfl, cnt_append, cnt_singleton,
                  if_neg (fun h => hxP h.symm : ¬P = x)]
                omega
              · rw [if_neg hyI]
                by_cases hyC : y = C
                · rw [hyC] at H ⊢
                  rw [if_pos rfl, B3 x hxP hxI]
                  exact H
                · rw [if_neg hyC]
                  exact H

theorem countSym_mem_iff (g : Graph) (ns : List Nat) (hs : countSym g ns) :
    ∀ p ∈ ns, ∀ c ∈ ns, (c ∈ (g p).children ↔ p ∈ (g c).parents) := by
  intro p hp c hc
  have H := hs p hp c hc
  constructor
  · intro hm
    exact cnt_pos_iff_mem.mp (H ▸ cnt_pos_iff_mem.mpr hm)
  · intro hm
    exact cnt_pos_iff_mem.mp (H ▸ cnt_pos_iff_mem.mpr hm)

theorem removePlan_presSym (g : Graph) (ns : List Nat) (N : Nat)
    (hs : countSym g ns) (hN : N ∉ ns)
    (hshare : (g N).parents = [] →
      ∀ x ∈ ns, x ∉ (g ((g N).children.headD 0)).parents)
    (hok : (RemovePlan g N).2 = none) : countSym (RemovePlan g N).1 ns := by
  by_cases hguard : 1 < (g N).parents.length ∨ (g N).children.length ≠ 1
  · exfalso
    have hbad : (RemovePlan g N).2 = some "cant remove this plan" := by
      simp only [RemovePlan]; rw [if_pos hguard]
    rw [hbad] at hok
    exact Option.noConfusion hok
  · have hng := not_or.mp hguard
    have hclen1 : (g N).children.length = 1 := not_not.mp hng.2
    by_cases hp0 : (g N).parents.length = 0
    · have hpe : (g N).parents = [] := List.length_eq_zero.mp hp0
      have hres : (RemovePlan g N).1 = SetParentsEmpty g ((g N).children.headD 0) := by
        simp only [RemovePlan]; rw [if_neg hguard, if_pos hp0]
      rw [hres]
      intro x hx y hy
      have H := hs x hx y hy
      rw [SetParentsEmpty, setParentsList_children, setParentsList_parents]
      by_cases hyc : y = (g N).children.headD 0
      · rw [hyc] at H ⊢
        rw [if_pos rfl, cnt_nil]
        have hx0 : x ∉ (g ((g N).children.headD 0)).parents := hshare hpe x hx
        rw [cnt_eq_zero_of_not_mem hx0] at H
        exact H
      · rw [if_neg hyc]
        exact H
    · have hpl1 : (g N).parents.length = 1 := by
        have := Nat.not_lt.mp hng.1
        omega
      obtain ⟨P0, hpl⟩ : ∃ p, (g N).parents = [p] := ⟨_, length_eq_one_headD hpl1⟩
      obtain ⟨C0, hcl⟩ : ∃ c, (g N).children = [c] := ⟨_, length_eq_one_headD hclen1⟩
      have hres0 : RemovePlan g N =
          (match ReplaceChild g P0 N C0 with
           | (g1, some e) => (g1, some e)
           | (g1, none) => ReplaceParent g1 C0 N P0) := by
        simp only [RemovePlan]
        rw [if_neg hguard, if_neg hp0, hpl, hcl]
        rfl
      cases hrc : replaceFirst (g P0).children N C0 with
      | none =>
        exfalso
        have hbad : (RemovePlan g N).2 = some "ReplaceChild failed" := by
          rw [hres0]
          simp [ReplaceChild, hrc]
        rw [hbad] at hok
        exact Option.noConfusion hok
      | some lc =>
        have hRC : ReplaceChild g P0 N C0 = (setChildrenList g P0 lc, none) := by
          simp [ReplaceChild, hrc]
        cases hrp : replaceFirst (g C0).parents N P0 with
        | none =>
          exfalso
          have hrp' : replaceFirst ((setChildrenList g P0 lc) C0).parents N P0 = none := by
            rw [setChildrenList_parents]; exact hrp
          have hbad : (RemovePlan g N).2 = some "ReplaceParent failed" := by
            rw [hres0, hRC]
            simp [ReplaceParent, hrp']
          rw [hbad] at hok
          exact Option.noConfusion hok
        | some lp =>
          have hrp' : replaceFirst ((setChildrenList g P0 lc) C0).parents N P0 = some lp := by
            rw [setChildrenList_parents]; exact hrp
          have hres : (RemovePlan g N).1 = setParentsList (setChildrenList g P0 lc) C0 lp := by
            rw [hres0, hRC]
            simp [ReplaceParent, hrp']
          rw [hres]
          have hA := replaceFirst_cnt hrc
          have hB := replaceFirst_cnt hrp
          intro x hx y hy
          have H := hs x hx y hy
          have hxN : ¬N = x := fun h => hN (h ▸ hx)
          have hyN : ¬N = y := fun h => hN (h ▸ hy)
          rw [setParentsList_children, setChildrenList_children,
            setParentsList_parents, setChildrenList_parents]
          by_cases hxP : x = P0
          · rw [hxP] at H hxN ⊢
            rw [if_pos rfl]
            by_cases hyC : y = C0
            · rw [hyC] at H hyN ⊢
              rw [if_pos rfl]
              have a := hA C0
              rw [if_neg hyN, if_pos rfl] at a
              have b := hB P0
              rw [if_neg hxN, if_pos rfl] at b
              omega
            · rw [if_neg hyC]
              have a := hA y
              rw [if_neg hyN, if_neg (fun h => hyC h.symm : ¬C0 = y)] at a
              omega
          · rw [if_neg hxP]
            by_cases hyC : y = C0
            · rw [hyC] at H hyN ⊢
              rw [if_pos rfl]
              have b := hB x
              rw [if_neg hxN, if_neg (fun h => hxP h.symm : ¬P0 = x)] at b
              omega
            · rw [if_neg hyC]
              exact H

/-- Claim C1 counterexample: `exGraphC1` satisfies the edge symmetry
invariant on its three nodes; removing the parentless root 1 succeeds,
and afterwards the remaining reachable pair (0, 2) violates symmetry —
node 0 still lists node 2 as a child while node 2 no longer lists node
0 as a parent. -/
theorem C1_counterexample :
    (∀ p ∈ ([0, 1, 2] : List Nat), ∀ c ∈ ([0, 1, 2] : List Nat),
      (c ∈ (exGraphC1 p).children ↔ p ∈ (exGraphC1 c).parents)) ∧
      countSym exGraphC1 [0, 1, 2] ∧
      (RemovePlan exGraphC1 1).2 = none ∧
      2 ∈ ((RemovePlan exGraphC1 1).1 0).children ∧
      0 ∉ ((RemovePlan exGraphC1 1).1 2).parents := by
  decide

/-- Claim C1 (amended): edge symmetry counted with multiplicity (which
implies the member-iff form, last conjunct) is preserved by `addChild`
always, by every successful `InsertPlan` (including the degenerate
calls where the inserted node coincides with the parent or the child),
and by a successful `RemovePlan` over the remaining nodes provided
that, in the parentless case, the removed node's single child has no
parent among the remaining nodes; without that proviso a successful
`RemovePlan` can break symmetry between remaining reachable nodes. -/
theorem C1_edge_symmetry :
    (∀ (g : Graph) (ns : List Nat) (po co : Option Nat),
      countSym g ns → countSym (addChild g po co) ns) ∧
    (∀ (g : Graph) (ns : List Nat) (P C I : Nat),
      countSym g ns → (InsertPlan g P C I).2 = none →
      countSym (InsertPlan g P C I).1 ns) ∧
    (∀ (g : Graph) (ns : List Nat) (N : Nat),
      countSym g ns → N ∉ ns →
      ((g N).parents = [] → ∀ x ∈ ns, x ∉ (g ((g N).children.headD 0)).parents) →
      (RemovePlan g N).2 = none → countSym (RemovePlan g N).1 ns) ∧
    (∀ (g : Graph) (ns : List Nat), countSym g ns →
      ∀ p ∈ ns, ∀ c ∈ ns, (c ∈ (g p).children ↔ p ∈ (g c).parents)) :=
  ⟨fun g ns po co hs => addChild_presSym g ns po co hs,
   fun g ns P C I hs hok => insertPlan_presSym g ns P C I hs hok,
   fun g ns N hs hN hsh hok => removePlan_presSym g ns N hs hN hsh hok,
   fun g ns hs => countSym_mem_iff g ns hs⟩

/-- Witness for C1 (amended): the three preservation statements applied
to concrete graphs — the InsertPlan part both at a fresh insert node
and at the degenerate call inserting the child below itself — and the
member-iff consequence on `exGraphC1`. -/
theorem C1_edge_symmetry_witness :
    (countSym exGraphC4 [0, 1, 2] ∧
      countSym (addChild exGraphC4 (some 2) (some 0)) [0, 1, 2]) ∧
    (countSym exGraphC7W [0, 1] ∧
      (InsertPlan exGraphC7W 0 1 2).2 = none ∧
      countSym (InsertPlan exGraphC7W 0 1 2).1 [0, 1]) ∧
    (countSym exGraphC7W [0, 1] ∧
      (InsertPlan exGraphC7W 0 1 1).2 = none ∧
      countSym (InsertPlan exGraphC7W 0 1 1).1 [0, 1]) ∧
    (countSym exGraphC4 [0, 2] ∧ (1 : Nat) ∉ ([0, 2] : List Nat) ∧
      (RemovePlan exGraphC4 1).2 = none ∧
      countSym (RemovePlan exGraphC4 1).1 [0, 2]) ∧
    (countSym exGraphC1 [0, 1, 2] ∧
      ∀ p ∈ ([0, 1, 2] : List Nat), ∀ c ∈ ([0, 1, 2] : List Nat),
        (c ∈ (exGraphC1 p).children ↔ p ∈ (exGraphC1 c).parents)) :=
  ⟨⟨by decide, C1_edge_symmetry.1 exGraphC4 [0, 1, 2] (some 2) (some 0) (by decide)⟩,
   ⟨by decide, by decide,
     C1_edge_symmetry.2.1 exGraphC7W [0, 1] 0 1 2 (by decide) (by decide)⟩,
   ⟨by decide, by decide,
     C1_edge_symmetry.2.1 exGraphC7W [0, 1] 0 1 1 (by decide) (by decide)⟩,
   ⟨by decide, by decide, by decide,
     C1_edge_symmetry.2.2.1 exGraphC4 [0, 2] 1 (by decide) (by decide)
       (by decide) (by decide)⟩,
   ⟨by decide, C1_edge_symmetry.2.2.2 exGraphC1 [0, 1, 2] (by decide)⟩⟩

end PlanGraph
